import Mathlib

/-!
Verification of the supabase-auth-seeder orchestration core.

The TypeScript sources are embedded shallowly:
* counters are `Nat`, money-free arithmetic on JS numbers used as integers is `Nat`;
* JS floating-point arithmetic in the progress utilities is embedded over `ℚ`;
* the remote "create user" call is an injected capability: a `Bool`-valued
  oracle (settled fulfilled/rejected) for the concurrent and chunked seeders,
  and a per-attempt `Option String` failure oracle for the conservative seeder;
* `Date.now()` and `Math.random()` are environment inputs, passed as explicit
  parameters (a timestamp and an index-picking function);
* console output, progress bars and real-time delays are dropped: they do not
  touch the run counters.
-/

/-- RunState: the mutable counters owned by each seeder class
(`processedUsers`, `errors` in seeder.ts / batch-seeder.ts / conservative-seeder.ts). -/
structure RunState where
  processedUsers : Nat
  errors : Nat
deriving DecidableEq

/-- `Math.ceil(totalUsers / batchSize)` on natural numbers
(seeder.ts line 48, batch-seeder.ts line 51, conservative-seeder.ts line 52). -/
def numBatches (totalUsers batchSize : Nat) : Nat :=
  (totalUsers + batchSize - 1) / batchSize

/-- The per-index batch size `Math.min(batchSize, totalUsers - batchIndex * batchSize)`
computed by every seeder's dispatch loop, listed for all batch indices. -/
def batchSizes (totalUsers batchSize : Nat) : List Nat :=
  (List.range (numBatches totalUsers batchSize)).map
    fun i => min batchSize (totalUsers - i * batchSize)

/-- The number of batches the conservative seeder runs: it first caps the batch
size at 100 (`const batchSize = Math.min(config.seeding.batchSize, 100)`,
conservative-seeder.ts line 33) and only then takes the ceiling. -/
def conservativeBatches (totalUsers batchSize : Nat) : Nat :=
  numBatches totalUsers (min batchSize 100)

/-- `AuthUserSeeder.processBatch` (seeder.ts lines 82-123).
`create` maps a record's global index to the settled outcome of `createUser`
(`true` = fulfilled, `false` = rejected); `genOk = false` models a throw inside
the `try` block before any record settles (e.g. the generator failing), which
the `catch` turns into `this.errors += batchSize`. -/
def processBatch (create : Nat → Bool) (genOk : Bool) (start size : Nat)
    (st : RunState) : RunState :=
  if genOk then
    let results := (List.range size).map fun j => create (start + j)
    { processedUsers := st.processedUsers + results.count true
      errors := st.errors + results.count false }
  else
    { st with errors := st.errors + size }

/-- `AuthUserSeeder.seedUsers` (seeder.ts lines 26-77): the polling loop
dispatches batch indices `0, 1, ...` in order, each through `processBatch`;
every batch's success/failure tallies are added to the shared counters exactly
once, so the final counters are the fold of `processBatch` over the batch
indices.  (The slot pool itself is modelled separately as `SStep`/`STrace`.) -/
def seedUsersConcurrent (create : Nat → Bool) (genOk : Nat → Bool)
    (totalUsers batchSize : Nat) : RunState :=
  (List.range (numBatches totalUsers batchSize)).foldl
    (fun st i =>
      processBatch create (genOk i) (i * batchSize)
        (min batchSize (totalUsers - i * batchSize)) st)
    ⟨0, 0⟩

/-- The inner chunk loop of `BatchSeeder.processBatch` (batch-seeder.ts lines
74-95): `const chunkSize = 100`, then for each slice of at most 100 records the
settled successes/failures are added to the counters.  `start` is the global
index of the first remaining record, `size` the number of remaining records. -/
def processChunks (create : Nat → Bool) (start size : Nat) (st : RunState) :
    RunState :=
  if h : size = 0 then st
  else
    let c := min 100 size
    let results := (List.range c).map fun j => create (start + j)
    processChunks create (start + c) (size - c)
      { processedUsers := st.processedUsers + results.count true
        errors := st.errors + results.count false }
termination_by size
decreasing_by simp_wf; omega

/-- `BatchSeeder.processBatch` (batch-seeder.ts lines 68-114): the whole body is
wrapped in `try`; a throw before the chunk loop starts (`genOk = false`, e.g.
the generator failing) lands in `catch`, which does `this.errors += batchSize`. -/
def processBatchChunked (create : Nat → Bool) (genOk : Bool) (start size : Nat)
    (st : RunState) : RunState :=
  if genOk then processChunks create start size st
  else { st with errors := st.errors + size }

/-- `BatchSeeder.seedUsers` (batch-seeder.ts lines 32-63): strictly sequential
`for` loop over batch indices, with the same per-index batch size formula. -/
def seedUsersChunked (create : Nat → Bool) (genOk : Nat → Bool)
    (totalUsers batchSize : Nat) : RunState :=
  (List.range (numBatches totalUsers batchSize)).foldl
    (fun st i =>
      processBatchChunked create (genOk i) (i * batchSize)
        (min batchSize (totalUsers - i * batchSize)) st)
    ⟨0, 0⟩

/-- Character-list matching at the head: does `p` occur at the start of the
second list? (Helper for the JS `String.prototype.includes` embedding.) -/
def leadMatch : List Char → List Char → Bool
  | [], _ => true
  | _ :: _, [] => false
  | p :: ps, c :: cs => p == c && leadMatch ps cs

/-- Does `pat` occur contiguously anywhere in the list? -/
def containsSeq (pat : List Char) : List Char → Bool
  | [] => leadMatch pat []
  | c :: cs => leadMatch pat (c :: cs) || containsSeq pat cs

/-- JS `s.includes(pat)`. -/
def strIncludes (s pat : String) : Bool := containsSeq pat.data s.data

/-- The transient-error test of `ConservativeSeeder.createUserWithRetry`
(conservative-seeder.ts lines 139-142): the error message contains
`'fetch failed'`, `'ETIMEDOUT'` or `'ECONNRESET'`. -/
def isNetworkError (msg : String) : Bool :=
  strIncludes msg "fetch failed" || strIncludes msg "ETIMEDOUT"
    || strIncludes msg "ECONNRESET"

/-- Observable outcome of one `createUserWithRetry` call: the settled result,
the number of retries performed (attempts beyond the first), and the total
backoff wait in milliseconds accumulated by `await delay(attempt * 1000)`. -/
structure RetryResult where
  result : Except String Unit
  retries : Nat
  waitMs : Nat

/-- The retry `for` loop of `ConservativeSeeder.createUserWithRetry`
(conservative-seeder.ts lines 122-153).  `outcome a` is the result of the
remote call on attempt `a` (`none` = success, `some msg` = throw with message
`msg`).  `fuel` counts the loop iterations still allowed
(`maxRetries + 1 - attempt`); if the loop falls through, the function returns
`undefined`, i.e. resolves successfully. -/
def retryGo (outcome : Nat → Option String) (maxRetries : Nat) :
    Nat → Nat → Nat → RetryResult
  | 0, attempt, wait => ⟨Except.ok (), attempt - 1, wait⟩
  | fuel + 1, attempt, wait =>
    match outcome attempt with
    | none => ⟨Except.ok (), attempt - 1, wait⟩
    | some msg =>
      if isNetworkError msg && attempt < maxRetries then
        retryGo outcome maxRetries fuel (attempt + 1) (wait + attempt * 1000)
      else ⟨Except.error msg, attempt - 1, wait⟩

/-- `ConservativeSeeder.createUserWithRetry` with its default `maxRetries = 3`
entry point: the loop starts at `attempt = 1` with no wait accumulated. -/
def createUserWithRetry (outcome : Nat → Option String) (maxRetries : Nat) :
    RetryResult :=
  retryGo outcome maxRetries maxRetries 1 0

/-- Cumulative backoff wait after reaching attempt `a`:
`1000 + 2000 + ... + (a-1)*1000` milliseconds. -/
def backoffSum (a : Nat) : Nat :=
  ((List.range a).map fun b => b * 1000).sum

/-- One iteration of the sequential record loop in
`ConservativeSeeder.processBatchConservative` (conservative-seeder.ts lines
78-98): a resolved `createUserWithRetry` increments `processedUsers`, a
rejected one increments `errors`.  `attempts k a` is the attempt-`a` outcome
for the record with global index `k`. -/
def conservativeRecordStep (attempts : Nat → Nat → Option String) (start : Nat)
    (st : RunState) (j : Nat) : RunState :=
  match (createUserWithRetry (attempts (start + j)) 3).result with
  | Except.ok _ => { st with processedUsers := st.processedUsers + 1 }
  | Except.error _ => { st with errors := st.errors + 1 }

/-- Whether the record with global index `k` is ultimately recorded as a
success by the conservative seeder: its `createUserWithRetry` call resolves. -/
def recordOk (attempts : Nat → Nat → Option String) (k : Nat) : Bool :=
  match (createUserWithRetry (attempts k) 3).result with
  | Except.ok _ => true
  | Except.error _ => false

/-- `ConservativeSeeder.processBatchConservative` (conservative-seeder.ts lines
71-117): sequential one-at-a-time record creation; a throw before the record
loop (`genOk = false`) is caught and counted as `this.errors += batchSize`. -/
def processBatchConservative (attempts : Nat → Nat → Option String)
    (genOk : Bool) (start size : Nat) (st : RunState) : RunState :=
  if genOk then
    (List.range size).foldl (conservativeRecordStep attempts start) st
  else { st with errors := st.errors + size }

/-- `ConservativeSeeder.seedUsers` (conservative-seeder.ts lines 31-66):
batch size capped at 100, then the same sequential batch loop. -/
def seedUsersConservative (attempts : Nat → Nat → Option String)
    (genOk : Nat → Bool) (totalUsers batchSize : Nat) : RunState :=
  let bs := min batchSize 100
  (List.range (numBatches totalUsers bs)).foldl
    (fun st i =>
      processBatchConservative attempts (genOk i) (i * bs)
        (min bs (totalUsers - i * bs)) st)
    ⟨0, 0⟩

/-- `user_metadata` as built by `generateUserBatch` (utils.ts lines 51-55). -/
structure UserMetadata where
  first_name : String
  last_name : String
  email_verified : Bool
deriving DecidableEq

/-- `UserData` (utils.ts lines 1-9). -/
structure UserData where
  email : String
  password : String
  user_metadata : UserMetadata
deriving DecidableEq

/-- The `firstNames` table (utils.ts lines 11-21), verbatim with its repeats. -/
def firstNames : List String :=
  ["John", "Jane", "Michael", "Sarah", "David", "Emily", "James", "Jessica",
   "Robert", "Ashley", "William", "Amanda", "Richard", "Jennifer", "Charles",
   "Michelle", "Thomas", "Kimberly", "Christopher", "Donna", "Daniel", "Lisa",
   "Matthew", "Nancy", "Anthony", "Karen", "Mark", "Betty", "Donald", "Helen",
   "Steven", "Sandra", "Paul", "Donna", "Andrew", "Carol", "Joshua", "Ruth",
   "Kenneth", "Sharon", "Kevin", "Michelle", "Brian", "Laura", "George",
   "Sarah", "Edward", "Kimberly", "Ronald", "Deborah", "Timothy", "Dorothy",
   "Jason", "Lisa", "Jeffrey", "Nancy", "Ryan", "Karen", "Jacob", "Betty",
   "Gary", "Helen", "Nicholas", "Sandra", "Eric", "Donna", "Jonathan", "Carol",
   "Stephen", "Ruth", "Larry", "Sharon", "Justin", "Michelle", "Scott",
   "Laura", "Brandon", "Sarah", "Benjamin", "Kimberly", "Samuel", "Deborah",
   "Gregory", "Dorothy", "Alexander", "Lisa", "Patrick", "Nancy", "Jack",
   "Karen"]

/-- The `lastNames` table (utils.ts lines 23-33). -/
def lastNames : List String :=
  ["Smith", "Johnson", "Williams", "Brown", "Jones", "Garcia", "Miller",
   "Davis", "Rodriguez", "Martinez", "Hernandez", "Lopez", "Gonzalez",
   "Wilson", "Anderson", "Thomas", "Taylor", "Moore", "Jackson", "Martin",
   "Lee", "Perez", "Thompson", "White", "Harris", "Sanchez", "Clark",
   "Ramirez", "Lewis", "Robinson", "Walker", "Young", "Allen", "King",
   "Wright", "Scott", "Torres", "Nguyen", "Hill", "Flores", "Green", "Adams",
   "Nelson", "Baker", "Hall", "Rivera", "Campbell", "Mitchell", "Carter",
   "Roberts", "Gomez", "Phillips", "Evans", "Turner", "Diaz", "Parker",
   "Cruz", "Edwards", "Collins", "Reyes", "Stewart", "Morris", "Morales",
   "Murphy", "Cook", "Rogers", "Gutierrez", "Ortiz", "Morgan", "Cooper",
   "Peterson", "Bailey", "Reed", "Kelly", "Howard", "Ramos", "Kim", "Cox",
   "Ward", "Richardson", "Watson", "Brooks", "Chavez", "Wood", "James",
   "Bennett", "Gray", "Mendoza", "Ruiz", "Hughes"]

/-- JS `String.prototype.toLowerCase` on the ASCII name tables:
per-character lowering. -/
def lowerStr (s : String) : String := String.mk (s.data.map Char.toLower)

/-- The decimal digit character for `d` (`'0'` at code point 48). -/
def digitChar (d : Nat) : Char := Char.ofNat (48 + d)

/-- Digit extraction for decimal rendering, most significant digit first;
`fuel` bounds the recursion (any `fuel ≥ n` gives all digits of `n`). -/
def natCharsAux : Nat → Nat → List Char
  | 0, _ => []
  | fuel + 1, n =>
    if n = 0 then []
    else natCharsAux fuel (n / 10) ++ [digitChar (n % 10)]

/-- Decimal rendering of a natural number as a character list, as JS template
interpolation `${n}` renders a non-negative integer. -/
def natChars (n : Nat) : List Char :=
  if n = 0 then ['0'] else natCharsAux n n

/-- The part of a generated email before the `'-'` of the unique id:
`firstname.lastname.timestamp` lowered (utils.ts lines 43-46). -/
def emailLocal (firstName lastName : String) (timestamp : Nat) : List Char :=
  (lowerStr firstName).data ++ '.' :: (lowerStr lastName).data
    ++ '.' :: natChars timestamp

/-- The full rendered email template
`firstname.lastname.timestamp-index@domain` (utils.ts line 46). -/
def emailChars (firstName lastName : String) (timestamp i : Nat)
    (emailDomain : String) : List Char :=
  emailLocal firstName lastName timestamp
    ++ '-' :: (natChars i ++ '@' :: emailDomain.data)

/-- `generateUserBatch` (utils.ts lines 38-60).  `timestamp` is the single
`Date.now()` taken at the start of the call; `pick i` is the pair of
`Math.floor(Math.random() * table.length)` draws for record `i`. -/
def generateUserBatch (batchSize : Nat) (emailDomain defaultPassword : String)
    (timestamp : Nat) (pick : Nat → Nat × Nat) : List UserData :=
  (List.range batchSize).map fun i =>
    let firstName := firstNames.getD (pick i).1 ""
    let lastName := lastNames.getD (pick i).2 ""
    { email := String.mk (emailChars firstName lastName timestamp i emailDomain)
      password := defaultPassword
      user_metadata :=
        { first_name := firstName, last_name := lastName
          email_verified := true } }

/-- Placeholder record used as the out-of-range default of `emailAt`. -/
def dummyUser : UserData := ⟨"", "", ⟨"", "", false⟩⟩

/-- The email of the `i`-th record of a generated batch. -/
def emailAt (users : List UserData) (i : Nat) : String :=
  (users.getD i dummyUser).email

/-- Truncation toward zero on rationals, the integer part JS `%` divides by. -/
def ratTrunc (q : ℚ) : ℤ := if 0 ≤ q then ⌊q⌋ else ⌈q⌉

/-- The JS remainder operator `a % b` (sign of the dividend). -/
def jsRem (a b : ℚ) : ℚ := a - b * (ratTrunc (a / b) : ℚ)

/-- The estimate computed inside `calculateETA` (utils.ts lines 75-78):
`remaining / rate` with `rate = processed / elapsed`. -/
def etaMillis (processed total elapsed : ℚ) : ℚ :=
  (total - processed) / (processed / elapsed)

/-- `calculateETA` (utils.ts lines 72-91), with `elapsed = now - startTime`
substituted for `Date.now() - startTime`. -/
def calculateETA (processed total startTime now : ℚ) : String :=
  if processed = 0 then "Calculating..."
  else
    let elapsed := now - startTime
    let etaMs := etaMillis processed total elapsed
    let hours : ℤ := ⌊etaMs / (1000 * 60 * 60)⌋
    let minutes : ℤ := ⌊jsRem etaMs (1000 * 60 * 60) / (1000 * 60)⌋
    let seconds : ℤ := ⌊jsRem etaMs (1000 * 60) / 1000⌋
    if 0 < hours then
      toString hours ++ "h " ++ toString minutes ++ "m " ++ toString seconds
        ++ "s"
    else if 0 < minutes then
      toString minutes ++ "m " ++ toString seconds ++ "s"
    else
      toString seconds ++ "s"

/-- The configuration fields the entry points read (config.ts lines 19-31):
the two credentials, plus the seeding numbers the run needs here.  A missing
environment variable yields the empty string (`process.env.X || ''`). -/
structure AppConfig where
  supabaseUrl : String
  serviceRoleKey : String
  totalUsers : Nat
  batchSize : Nat
deriving DecidableEq

/-- `validateConfig` (config.ts lines 33-45): throws on a falsy credential,
naming the missing setting. -/
def validateConfig (cfg : AppConfig) : Except String Unit :=
  if cfg.supabaseUrl = "" then Except.error "SUPABASE_URL is required"
  else if cfg.serviceRoleKey = "" then
    Except.error "SUPABASE_SERVICE_ROLE_KEY is required"
  else Except.ok ()

/-- Observable outcome of one entry point: the process exit code, the fatal
error message reported (if any), and the run counters if seeding ran. -/
structure MainResult where
  exitCode : Nat
  reported : Option String
  run : Option RunState
deriving DecidableEq

/-- `main` of index.ts (lines 112-141): `validateConfig()` first; a throw is
caught, reported, and ends in `process.exit(1)`; otherwise the concurrent
seeder runs and the process exits 0. -/
def mainIndex (cfg : AppConfig) (create : Nat → Bool) (genOk : Nat → Bool) :
    MainResult :=
  match validateConfig cfg with
  | Except.error msg => ⟨1, some msg, none⟩
  | Except.ok _ =>
    ⟨0, none, some (seedUsersConcurrent create genOk cfg.totalUsers
        cfg.batchSize)⟩

/-- `main` of batch-seeder.ts (lines 151-169): it constructs `BatchSeeder` and
runs it directly — no `validateConfig` call.  The external client constructor
is an opaque remote dependency, modelled as succeeding; the seeder itself
absorbs every batch error, so the run completes and exits 0. -/
def mainBatchSeeder (cfg : AppConfig) (create : Nat → Bool)
    (genOk : Nat → Bool) : MainResult :=
  ⟨0, none, some (seedUsersChunked create genOk cfg.totalUsers cfg.batchSize)⟩

/-- `main` of conservative-seeder.ts (lines 179-195): likewise runs the
conservative seeder with no `validateConfig` call. -/
def mainConservative (cfg : AppConfig) (attempts : Nat → Nat → Option String)
    (genOk : Nat → Bool) : MainResult :=
  ⟨0, none, some (seedUsersConservative attempts genOk cfg.totalUsers
      cfg.batchSize)⟩

/-- State of the concurrent dispatch loop (seeder.ts lines 49-74):
`currentBatch` and the `semaphore` array of slots (`none` = free slot,
`some b` = batch `b` in flight). -/
structure SchedState where
  current : Nat
  slots : List (Option Nat)
deriving DecidableEq

/-- Observable scheduler events: batch `b` is dispatched / batch `b`'s
promise settles and its `finally` frees the slot. -/
inductive SLabel where
  | disp (b : Nat)
  | comp (b : Nat)
deriving DecidableEq

/-- One step of the concurrent dispatch loop: either the loop body finds a
free slot and `currentBatch < batches` and starts `processBatch(currentBatch++)`
in it (seeder.ts lines 57-66), or an in-flight batch settles and its `finally`
callback clears its slot (line 65).  Which slot frees first is up to the
environment, so completion is nondeterministic. -/
inductive SStep (batches : Nat) : SchedState → SLabel → SchedState → Prop where
  | dispatch (s : SchedState) (k : Nat)
      (hfree : s.slots[k]? = some none) (hlt : s.current < batches) :
      SStep batches s (SLabel.disp s.current)
        ⟨s.current + 1, s.slots.set k (some s.current)⟩
  | complete (s : SchedState) (k b : Nat)
      (hocc : s.slots[k]? = some (some b)) :
      SStep batches s (SLabel.comp b) ⟨s.current, s.slots.set k none⟩

/-- A finite execution of the dispatch loop, recording its event labels. -/
inductive STrace (batches : Nat) : SchedState → List SLabel → SchedState → Prop
    where
  | done (s : SchedState) : STrace batches s [] s
  | step (s : SchedState) (l : SLabel) (t : SchedState) (ls : List SLabel)
      (u : SchedState) : SStep batches s l t → STrace batches t ls u →
      STrace batches s (l :: ls) u

/-- The loop's initial state: `currentBatch = 0` and
`new Array(concurrentBatches).fill(null)` (seeder.ts line 52). -/
def schedInit (limit : Nat) : SchedState := ⟨0, List.replicate limit none⟩

/-- The batches currently in flight: the occupied slots. -/
def inFlight (s : SchedState) : List Nat := s.slots.filterMap id

/-- Project a dispatch label. -/
def dispOf : SLabel → Option Nat
  | SLabel.disp b => some b
  | SLabel.comp _ => none

/-- Project a completion label. -/
def compOf : SLabel → Option Nat
  | SLabel.comp b => some b
  | SLabel.disp _ => none

/-- The batch indices dispatched along a trace, in order. -/
def dispLabels (ls : List SLabel) : List Nat := ls.filterMap dispOf

/-- The batch indices whose processing completed along a trace, in order. -/
def compLabels (ls : List SLabel) : List Nat := ls.filterMap compOf

/-- JS `Math.round`: round half toward positive infinity. -/
def jsRound (x : ℚ) : ℤ := ⌊x + 1 / 2⌋

/-- `calculatePercentage` (utils.ts lines 103-105):
`Math.round((current / total) * 100 * 100) / 100`. -/
def calculatePercentage (current total : ℚ) : ℚ :=
  (jsRound (current / total * 100 * 100) : ℚ) / 100

/-- Modelled from the spec's words: "rounds to two decimal places"
(half-up), the reference the code is compared against. -/
def roundTwoDecimals (x : ℚ) : ℚ :=
  ((⌊x * 100 + 1 / 2⌋ : ℤ) : ℚ) / 100

/-- C9: for all current ≥ 0 and total > 0, `calculatePercentage current total`
is `(current / total) × 100` rounded to two decimal places, and
`calculatePercentage 50 200 = 25`. -/
theorem calculatePercentage_correct (current total : ℚ)
    (hc : 0 ≤ current) (ht : 0 < total) :
    calculatePercentage current total = roundTwoDecimals (current / total * 100)
      ∧ calculatePercentage 50 200 = 25 := by
  refine ⟨rfl, ?_⟩
  unfold calculatePercentage jsRound
  have h : (50 : ℚ) / 200 * 100 * 100 = 2500 := by norm_num
  rw [h]
  have h2 : ⌊(2500 : ℚ) + 1 / 2⌋ = 2500 := by
    rw [Int.floor_eq_iff] <;> norm_num
  rw [h2]
  norm_num

theorem calculatePercentage_correct_witness :
    calculatePercentage 50 200 = roundTwoDecimals (50 / 200 * 100)
      ∧ calculatePercentage 50 200 = 25 :=
  calculatePercentage_correct 50 200 (by norm_num) (by norm_num)

theorem count_true_map (f : Nat → Bool) (l : List Nat) :
    (l.map f).count true = l.countP f := by
  induction l with
  | nil => rfl
  | cons a l ih =>
    rw [List.map_cons, List.count_cons, List.countP_cons, ih]
    cases h : f a <;> simp [h]

theorem count_false_map (f : Nat → Bool) (l : List Nat) :
    (l.map f).count false = l.countP fun k => !f k := by
  induction l with
  | nil => rfl
  | cons a l ih =>
    rw [List.map_cons, List.count_cons, List.countP_cons, ih]
    cases h : f a <;> simp [h]

theorem count_range_true (create : Nat → Bool) (start c : Nat) :
    ((List.range c).map fun j => create (start + j)).count true
      = (List.range' start c).countP create := by
  rw [count_true_map, List.range'_eq_map_range, List.countP_map]
  rfl

theorem count_range_false (create : Nat → Bool) (start c : Nat) :
    ((List.range c).map fun j => create (start + j)).count false
      = (List.range' start c).countP fun k => !create k := by
  rw [count_false_map, List.range'_eq_map_range, List.countP_map]
  rfl

theorem countP_add_countP_not (p : Nat → Bool) (l : List Nat) :
    l.countP p + l.countP (fun k => !p k) = l.length := by
  induction l with
  | nil => rfl
  | cons a l ih =>
    rw [List.countP_cons, List.countP_cons, List.length_cons, ← ih]
    cases h : p a <;> simp [h] <;> omega

theorem processBatch_ok (create : Nat → Bool) (start size : Nat)
    (st : RunState) :
    processBatch create true start size st
      = ⟨st.processedUsers + (List.range' start size).countP create,
         st.errors + (List.range' start size).countP fun k => !create k⟩ := by
  simp only [processBatch, if_true]
  rw [count_range_true, count_range_false]

theorem processChunks_count (create : Nat → Bool) :
    ∀ (size start : Nat) (st : RunState),
      processChunks create start size st
        = ⟨st.processedUsers + (List.range' start size).countP create,
           st.errors + (List.range' start size).countP fun k => !create k⟩ := by
  intro size
  induction size using Nat.strong_induction_on with
  | _ size ih =>
    intro start st
    rw [processChunks]
    by_cases h : size = 0
    · subst h; simp
    · rw [dif_neg h]
      simp only
      rw [ih (size - min 100 size) (by omega)]
      have hc : min 100 size ≤ size := Nat.min_le_right _ _
      have hr : List.range' start (min 100 size)
            ++ List.range' (start + min 100 size) (size - min 100 size)
          = List.range' start size := by
        rw [List.range'_append_1]
        congr 1
        omega
      rw [← hr, List.countP_append, List.countP_append,
        count_range_true, count_range_false]
      simp [RunState.mk.injEq]
      omega

theorem processBatchChunked_ok (create : Nat → Bool) (start size : Nat)
    (st : RunState) :
    processBatchChunked create true start size st
      = ⟨st.processedUsers + (List.range' start size).countP create,
         st.errors + (List.range' start size).countP fun k => !create k⟩ := by
  simp only [processBatchChunked, if_true]
  exact processChunks_count create size start st

theorem conservativeRecordStep_eq (attempts : Nat → Nat → Option String)
    (start : Nat) (st : RunState) (j : Nat) :
    conservativeRecordStep attempts start st j
      = if recordOk attempts (start + j)
        then { st with processedUsers := st.processedUsers + 1 }
        else { st with errors := st.errors + 1 } := by
  unfold conservativeRecordStep recordOk
  cases h : (createUserWithRetry (attempts (start + j)) 3).result <;> simp [h]

theorem processBatchConservative_ok (attempts : Nat → Nat → Option String)
    (start size : Nat) (st : RunState) :
    processBatchConservative attempts true start size st
      = ⟨st.processedUsers
            + (List.range' start size).countP (recordOk attempts),
         st.errors
            + (List.range' start size).countP
                fun k => !recordOk attempts k⟩ := by
  simp only [processBatchConservative, if_true]
  induction size generalizing st with
  | zero => simp
  | succ n ih =>
    rw [List.range_succ, List.foldl_append, List.foldl_cons, List.foldl_nil,
      ih, conservativeRecordStep_eq, List.range'_1_concat,
      List.countP_append, List.countP_append]
    cases h : recordOk attempts (start + n) <;>
      simp [h, List.countP_cons, RunState.mk.injEq] <;> omega

theorem shift_start (start b i : Nat) :
    start + (i + 1) * b = (start + b) + i * b := by
  rw [Nat.succ_mul, Nat.add_comm (i * b) b, ← Nat.add_assoc]

theorem shift_sub (t b i : Nat) : t - (i + 1) * b = (t - b) - i * b := by
  rw [Nat.succ_mul, Nat.add_comm (i * b) b, ← Nat.sub_sub]

theorem numBatches_zero (b t : Nat) (hb : 1 ≤ b) (h : numBatches t b = 0) :
    t = 0 := by
  unfold numBatches at h
  rw [Nat.div_eq_zero_iff hb] at h
  omega

theorem numBatches_succ_inv (b t n : Nat) (hb : 1 ≤ b)
    (h : numBatches t b = n + 1) : numBatches (t - b) b = n ∧ 1 ≤ t := by
  have ht : 1 ≤ t := by
    by_contra hc
    have ht0 : t = 0 := by omega
    subst ht0
    have hz : (0 + b - 1) / b = 0 := by
      rw [Nat.div_eq_zero_iff hb]
      omega
    unfold numBatches at h
    omega
  refine ⟨?_, ht⟩
  by_cases hbt : t ≤ b
  · have h1 : numBatches t b = 1 := by
      unfold numBatches
      apply Nat.div_eq_of_lt_le <;> omega
    have hn : n = 0 := by omega
    subst hn
    have htb : t - b = 0 := by omega
    rw [htb]
    unfold numBatches
    rw [Nat.div_eq_zero_iff hb]
    omega
  · have heq : t + b - 1 = ((t - b) + b - 1) + b := by omega
    unfold numBatches at h ⊢
    rw [heq, Nat.add_div_right _ hb] at h
    omega

theorem range_foldl_shift {α : Type} (f : α → Nat → α) (n : Nat) (st : α) :
    (List.range (n + 1)).foldl f st
      = (List.range n).foldl (fun s i => f s (i + 1)) (f st 0) := by
  rw [List.range_succ_eq_map, List.foldl_cons, List.foldl_map]

theorem run_batches_count (step : Nat → Nat → RunState → RunState)
    (p : Nat → Bool)
    (hstep : ∀ start size st, step start size st
        = ⟨st.processedUsers + (List.range' start size).countP p,
           st.errors + (List.range' start size).countP fun k => !p k⟩)
    (b : Nat) (hb : 1 ≤ b) :
    ∀ (n t start : Nat) (st : RunState), numBatches t b = n →
      (List.range n).foldl
          (fun s i => step (start + i * b) (min b (t - i * b)) s) st
        = ⟨st.processedUsers + (List.range' start t).countP p,
           st.errors + (List.range' start t).countP fun k => !p k⟩ := by
  intro n
  induction n with
  | zero =>
    intro t start st hn
    have ht : t = 0 := numBatches_zero b t hb hn
    subst ht
    simp
  | succ n ih =>
    intro t start st hn
    obtain ⟨hn', ht⟩ := numBatches_succ_inv b t n hb hn
    rw [List.range_succ_eq_map, List.foldl_cons, List.foldl_map]
    show (List.range n).foldl
        (fun s i => step (start + (i + 1) * b) (min b (t - (i + 1) * b)) s)
        (step (start + 0 * b) (min b (t - 0 * b)) st)
      = _
    have hbody : (fun (s : RunState) i =>
          step (start + (i + 1) * b) (min b (t - (i + 1) * b)) s)
        = fun s i =>
            step ((start + b) + i * b) (min b ((t - b) - i * b)) s := by
      funext s i
      rw [shift_start, shift_sub]
    rw [Nat.zero_mul, Nat.add_zero, Nat.sub_zero, hbody,
      ih (t - b) (start + b) (step start (min b t) st) hn',
      hstep start (min b t) st]
    by_cases hbt : b ≤ t
    · rw [Nat.min_eq_left hbt]
      have hr : List.range' start b ++ List.range' (start + b) (t - b)
          = List.range' start t := by
        rw [List.range'_append_1]
        congr 1
        omega
      rw [← hr, List.countP_append, List.countP_append]
      simp [RunState.mk.injEq]
      omega
    · have htb : t - b = 0 := by omega
      rw [Nat.min_eq_right (by omega), htb]
      simp [RunState.mk.injEq]

theorem run_batches_total (b : Nat) (hb : 1 ≤ b) :
    ∀ (n t : Nat) (F : Nat → RunState → RunState),
      (∀ i st, (F i st).processedUsers + (F i st).errors
          = st.processedUsers + st.errors + min b (t - i * b)) →
      ∀ st : RunState, numBatches t b = n →
        ((List.range n).foldl (fun s i => F i s) st).processedUsers
            + ((List.range n).foldl (fun s i => F i s) st).errors
          = st.processedUsers + st.errors + t := by
  intro n
  induction n with
  | zero =>
    intro t F hF st hn
    have ht : t = 0 := numBatches_zero b t hb hn
    subst ht
    simp
  | succ n ih =>
    intro t F hF st hn
    obtain ⟨hn', ht⟩ := numBatches_succ_inv b t n hb hn
    rw [List.range_succ_eq_map, List.foldl_cons, List.foldl_map]
    show ((List.range n).foldl (fun s i => F (i + 1) s) (F 0 st)).processedUsers
          + ((List.range n).foldl (fun s i => F (i + 1) s)
              (F 0 st)).errors
        = _
    have hF' : ∀ i st, (F (i + 1) st).processedUsers + (F (i + 1) st).errors
        = st.processedUsers + st.errors + min b ((t - b) - i * b) := by
      intro i st
      rw [← shift_sub]
      exact hF (i + 1) st
    have hcalc := ih (t - b) (fun i => F (i + 1)) hF' (F 0 st) hn'
    rw [hcalc]
    have hF0 := hF 0 st
    simp only [Nat.zero_mul, Nat.sub_zero] at hF0
    omega

theorem processBatch_err (create : Nat → Bool) (start size : Nat)
    (st : RunState) :
    processBatch create false start size st
      = { st with errors := st.errors + size } := rfl

theorem processBatchChunked_err (create : Nat → Bool) (start size : Nat)
    (st : RunState) :
    processBatchChunked create false start size st
      = { st with errors := st.errors + size } := rfl

theorem processBatchConservative_err (attempts : Nat → Nat → Option String)
    (start size : Nat) (st : RunState) :
    processBatchConservative attempts false start size st
      = { st with errors := st.errors + size } := rfl

theorem seedUsersConcurrent_counts (create : Nat → Bool) (t b : Nat)
    (hb : 1 ≤ b) :
    seedUsersConcurrent create (fun _ => true) t b
      = ⟨(List.range t).countP create,
         (List.range t).countP fun k => !create k⟩ := by
  have h := run_batches_count
    (fun start size st => processBatch create true start size st) create
    (fun start size st => processBatch_ok create start size st) b hb
    (numBatches t b) t 0 ⟨0, 0⟩ rfl
  simp only [Nat.zero_add] at h
  rw [List.range_eq_range']
  exact h

theorem seedUsersChunked_counts (create : Nat → Bool) (t b : Nat)
    (hb : 1 ≤ b) :
    seedUsersChunked create (fun _ => true) t b
      = ⟨(List.range t).countP create,
         (List.range t).countP fun k => !create k⟩ := by
  have h := run_batches_count
    (fun start size st => processBatchChunked create true start size st)
    create
    (fun start size st => processBatchChunked_ok create start size st) b hb
    (numBatches t b) t 0 ⟨0, 0⟩ rfl
  simp only [Nat.zero_add] at h
  rw [List.range_eq_range']
  exact h

theorem seedUsersConservative_counts (attempts : Nat → Nat → Option String)
    (t b : Nat) (hb : 1 ≤ b) :
    seedUsersConservative attempts (fun _ => true) t b
      = ⟨(List.range t).countP (recordOk attempts),
         (List.range t).countP fun k => !recordOk attempts k⟩ := by
  have hb' : 1 ≤ min b 100 := by omega
  have h := run_batches_count
    (fun start size st => processBatchConservative attempts true start size st)
    (recordOk attempts)
    (fun start size st => processBatchConservative_ok attempts start size st)
    (min b 100) hb' (numBatches t (min b 100)) t 0 ⟨0, 0⟩ rfl
  simp only [Nat.zero_add] at h
  rw [List.range_eq_range']
  exact h

theorem seedUsersConcurrent_total (create : Nat → Bool) (genOk : Nat → Bool)
    (t b : Nat) (hb : 1 ≤ b) :
    (seedUsersConcurrent create genOk t b).processedUsers
      + (seedUsersConcurrent create genOk t b).errors = t := by
  have hF : ∀ (i : Nat) (st : RunState),
      (processBatch create (genOk i) (i * b) (min b (t - i * b))
          st).processedUsers
        + (processBatch create (genOk i) (i * b) (min b (t - i * b)) st).errors
      = st.processedUsers + st.errors + min b (t - i * b) := by
    intro i st
    cases hg : genOk i
    · rw [processBatch_err]
      simp only
      omega
    · rw [processBatch_ok]
      have hc := countP_add_countP_not create
        (List.range' (i * b) (min b (t - i * b)))
      rw [List.length_range'] at hc
      simp only
      omega
  have h := run_batches_total b hb (numBatches t b) t
    (fun i st => processBatch create (genOk i) (i * b) (min b (t - i * b)) st)
    hF ⟨0, 0⟩ rfl
  simpa using h

theorem seedUsersChunked_total (create : Nat → Bool) (genOk : Nat → Bool)
    (t b : Nat) (hb : 1 ≤ b) :
    (seedUsersChunked create genOk t b).processedUsers
      + (seedUsersChunked create genOk t b).errors = t := by
  have hF : ∀ (i : Nat) (st : RunState),
      (processBatchChunked create (genOk i) (i * b) (min b (t - i * b))
          st).processedUsers
        + (processBatchChunked create (genOk i) (i * b)
            (min b (t - i * b)) st).errors
      = st.processedUsers + st.errors + min b (t - i * b) := by
    intro i st
    cases hg : genOk i
    · rw [processBatchChunked_err]
      simp only
      omega
    · rw [processBatchChunked_ok]
      have hc := countP_add_countP_not create
        (List.range' (i * b) (min b (t - i * b)))
      rw [List.length_range'] at hc
      simp only
      omega
  have h := run_batches_total b hb (numBatches t b) t
    (fun i st =>
      processBatchChunked create (genOk i) (i * b) (min b (t - i * b)) st)
    hF ⟨0, 0⟩ rfl
  simpa using h

theorem seedUsersConservative_total (attempts : Nat → Nat → Option String)
    (genOk : Nat → Bool) (t b : Nat) (hb : 1 ≤ b) :
    (seedUsersConservative attempts genOk t b).processedUsers
      + (seedUsersConservative attempts genOk t b).errors = t := by
  have hb' : 1 ≤ min b 100 := by omega
  have hF : ∀ (i : Nat) (st : RunState),
      (processBatchConservative attempts (genOk i) (i * min b 100)
          (min (min b 100) (t - i * min b 100)) st).processedUsers
        + (processBatchConservative attempts (genOk i) (i * min b 100)
            (min (min b 100) (t - i * min b 100)) st).errors
      = st.processedUsers + st.errors
          + min (min b 100) (t - i * min b 100) := by
    intro i st
    cases hg : genOk i
    · rw [processBatchConservative_err]
      simp only
      omega
    · rw [processBatchConservative_ok]
      have hc := countP_add_countP_not (recordOk attempts)
        (List.range' (i * min b 100) (min (min b 100) (t - i * min b 100)))
      rw [List.length_range'] at hc
      simp only
      omega
  have h := run_batches_total (min b 100) hb' (numBatches t (min b 100)) t
    (fun i st =>
      processBatchConservative attempts (genOk i) (i * min b 100)
        (min (min b 100) (t - i * min b 100)) st)
    hF ⟨0, 0⟩ rfl
  exact h.trans (by simp)

/-- C1: for every configuration (batch size ≥ 1) and every assignment of
per-record success/failure outcomes with no whole-batch exception, at run
completion `processedUsers + errors = totalUsers` in each of the three
policies; more precisely the concurrent and chunked policies (no retry) record
exactly the failing indices in `errors` and the others in `processedUsers`, so
with a creator stub failing exactly the records whose index is a multiple of 5,
`errors` equals the number of such indices and `processedUsers` the
complement. -/
theorem run_completion_counts (totalUsers batchSize : Nat)
    (hb : 1 ≤ batchSize) (create : Nat → Bool)
    (attempts : Nat → Nat → Option String) :
    ((seedUsersConcurrent create (fun _ => true) totalUsers
          batchSize).processedUsers
        + (seedUsersConcurrent create (fun _ => true) totalUsers
            batchSize).errors
      = totalUsers)
    ∧ ((seedUsersChunked create (fun _ => true) totalUsers
          batchSize).processedUsers
        + (seedUsersChunked create (fun _ => true) totalUsers
            batchSize).errors
      = totalUsers)
    ∧ ((seedUsersConservative attempts (fun _ => true) totalUsers
          batchSize).processedUsers
        + (seedUsersConservative attempts (fun _ => true) totalUsers
            batchSize).errors
      = totalUsers)
    ∧ (seedUsersConcurrent create (fun _ => true) totalUsers batchSize).errors
      = (List.range totalUsers).countP (fun k => !create k)
    ∧ (seedUsersConcurrent create (fun _ => true) totalUsers
          batchSize).processedUsers
      = (List.range totalUsers).countP create
    ∧ (seedUsersChunked create (fun _ => true) totalUsers batchSize).errors
      = (List.range totalUsers).countP (fun k => !create k)
    ∧ (seedUsersChunked create (fun _ => true) totalUsers
          batchSize).processedUsers
      = (List.range totalUsers).countP create
    ∧ (seedUsersConcurrent (fun k => !(k % 5 == 0)) (fun _ => true) totalUsers
          batchSize).errors
      = (List.range totalUsers).countP (fun k => k % 5 == 0)
    ∧ (seedUsersConcurrent (fun k => !(k % 5 == 0)) (fun _ => true) totalUsers
          batchSize).processedUsers
      = totalUsers - (List.range totalUsers).countP (fun k => k % 5 == 0)
    ∧ (seedUsersChunked (fun k => !(k % 5 == 0)) (fun _ => true) totalUsers
          batchSize).errors
      = (List.range totalUsers).countP (fun k => k % 5 == 0)
    ∧ (seedUsersChunked (fun k => !(k % 5 == 0)) (fun _ => true) totalUsers
          batchSize).processedUsers
      = totalUsers - (List.range totalUsers).countP (fun k => k % 5 == 0) := by
  have hcc := seedUsersConcurrent_counts create totalUsers batchSize hb
  have hch := seedUsersChunked_counts create totalUsers batchSize hb
  have h5c := seedUsersConcurrent_counts (fun k => !(k % 5 == 0)) totalUsers
    batchSize hb
  have h5h := seedUsersChunked_counts (fun k => !(k % 5 == 0)) totalUsers
    batchSize hb
  have hnot : (fun k => !(!(k % 5 == 0))) = fun (k : Nat) => k % 5 == 0 := by
    funext k
    simp
  have hsum5 := countP_add_countP_not (fun k => !(k % 5 == 0))
    (List.range totalUsers)
  rw [hnot, List.length_range] at hsum5
  refine ⟨seedUsersConcurrent_total create (fun _ => true) totalUsers
      batchSize hb,
    seedUsersChunked_total create (fun _ => true) totalUsers batchSize hb,
    seedUsersConservative_total attempts (fun _ => true) totalUsers batchSize
      hb, ?_, ?_, ?_, ?_, ?_, ?_, ?_, ?_⟩
  · rw [hcc]
  · rw [hcc]
  · rw [hch]
  · rw [hch]
  · rw [h5c]
    simp only
    rw [hnot]
  · rw [h5c]
    simp only
    omega
  · rw [h5h]
    simp only
    rw [hnot]
  · rw [h5h]
    simp only
    omega

theorem run_completion_counts_witness :
    (seedUsersConcurrent (fun k => !(k % 5 == 0)) (fun _ => true)
          7 3).processedUsers
      + (seedUsersConcurrent (fun k => !(k % 5 == 0)) (fun _ => true)
          7 3).errors = 7 :=
  (run_completion_counts 7 3 (by decide) (fun k => !(k % 5 == 0))
    (fun _ _ => none)).1

/-- C5: in every policy a whole-batch exception (e.g. the generator throwing)
is caught at the batch boundary: it adds exactly the batch's requested size to
`errors` and leaves `processedUsers` unchanged, and the run continues — for
every assignment of whole-batch failures (`genOk`) each policy still completes
the full run with `processedUsers + errors = totalUsers`, every failure
absorbed into the error counter rather than terminating the run. -/
theorem batch_failure_absorbed (create : Nat → Bool)
    (attempts : Nat → Nat → Option String) (genOk : Nat → Bool)
    (start size totalUsers batchSize : Nat) (st : RunState)
    (hb : 1 ≤ batchSize) :
    (processBatch create false start size st
        = { st with errors := st.errors + size })
    ∧ (processBatchChunked create false start size st
        = { st with errors := st.errors + size })
    ∧ (processBatchConservative attempts false start size st
        = { st with errors := st.errors + size })
    ∧ ((seedUsersConcurrent create genOk totalUsers batchSize).processedUsers
        + (seedUsersConcurrent create genOk totalUsers batchSize).errors
        = totalUsers)
    ∧ ((seedUsersChunked create genOk totalUsers batchSize).processedUsers
        + (seedUsersChunked create genOk totalUsers batchSize).errors
        = totalUsers)
    ∧ ((seedUsersConservative attempts genOk totalUsers
          batchSize).processedUsers
        + (seedUsersConservative attempts genOk totalUsers batchSize).errors
        = totalUsers) :=
  ⟨rfl, rfl, rfl,
    seedUsersConcurrent_total create genOk totalUsers batchSize hb,
    seedUsersChunked_total create genOk totalUsers batchSize hb,
    seedUsersConservative_total attempts genOk totalUsers batchSize hb⟩

theorem batch_failure_absorbed_witness :
    (seedUsersConservative (fun _ _ => none) (fun _ => false)
          7 3).processedUsers
      + (seedUsersConservative (fun _ _ => none) (fun _ => false) 7 3).errors
      = 7 :=
  (batch_failure_absorbed (fun _ => true) (fun _ _ => none) (fun _ => false)
    0 4 7 3 ⟨2, 1⟩ (by decide)).2.2.2.2.2

theorem lt_succ_div_mul (x y : Nat) (hy : 0 < y) : x < (x / y + 1) * y := by
  have hdm := Nat.div_add_mod x y
  have hm : x % y < y := Nat.mod_lt _ hy
  calc x = y * (x / y) + x % y := hdm.symm
    _ < y * (x / y) + y := by omega
    _ = (x / y + 1) * y := by ring

theorem numBatches_pos (t b : Nat) (ht : 1 ≤ t) (hb : 1 ≤ b) :
    1 ≤ numBatches t b := by
  by_contra h
  have h0 : numBatches t b = 0 := by omega
  have := numBatches_zero b t hb h0
  omega

theorem numBatches_bounds (t b : Nat) (ht : 1 ≤ t) (hb : 1 ≤ b) :
    t ≤ numBatches t b * b ∧ (numBatches t b - 1) * b < t := by
  constructor
  · have h := lt_succ_div_mul (t + b - 1) b (by omega)
    unfold numBatches
    rw [Nat.succ_mul] at h
    set m := (t + b - 1) / b * b with hm
    omega
  · have h := Nat.div_mul_le_self (t + b - 1) b
    unfold numBatches
    rcases Nat.eq_zero_or_pos ((t + b - 1) / b) with hq | hq
    · rw [hq]
      simpa using ht
    · obtain ⟨m, hm⟩ := Nat.exists_eq_add_of_le hq
      rw [hm] at h ⊢
      have h1 : (1 + m) * b = m * b + b := by ring
      rw [h1] at h
      have h2 : (1 + m - 1) * b = m * b := by
        congr 1
        omega
      rw [h2]
      set k := m * b with hk
      omega

/-- C2 counterexample: the conservative policy first caps the batch size at
100 (conservative-seeder.ts line 33), so for total = 200, batch_size = 200 it
runs `conservativeBatches 200 200 = 2` batches while
`ceil(total / batch_size) = numBatches 200 200 = 1`; the claim's "each policy
produces exactly ceil(total_count / batch_size) batches" is false for the
conservative policy. -/
theorem conservative_batch_count_counterexample :
    conservativeBatches 200 200 = 2 ∧ numBatches 200 200 = 1
      ∧ conservativeBatches 200 200 ≠ numBatches 200 200 := by
  decide

/-- C2 (amended): for total ≥ 1 and batch_size ≥ 1 the concurrent and chunked
policies produce exactly `ceil(total / batch)` batches (`numBatches`, the
least `n` with `total ≤ n * batch`), batch `i` has size
`min batch (total - i*batch)` which never exceeds `batch`, and the last
batch's size is `total - (batches-1)*batch`; the conservative policy produces
`ceil(total / min batch 100)` batches (its batch size is capped at 100).  For
total = 10, batch = 3 the sizes are [3,3,3,1] and an always-succeeding
creator yields processed = 10, errors = 0 under all three policies. -/
theorem batch_layout (t b : Nat) (ht : 1 ≤ t) (hb : 1 ≤ b) :
    (batchSizes t b).length = numBatches t b
    ∧ t ≤ numBatches t b * b
    ∧ (numBatches t b - 1) * b < t
    ∧ (∀ i, i < numBatches t b →
        (batchSizes t b).getD i 0 = min b (t - i * b)
          ∧ (batchSizes t b).getD i 0 ≤ b)
    ∧ (batchSizes t b).getLast? = some (t - (numBatches t b - 1) * b)
    ∧ conservativeBatches t b = numBatches t (min b 100)
    ∧ batchSizes 10 3 = [3, 3, 3, 1]
    ∧ seedUsersConcurrent (fun _ => true) (fun _ => true) 10 3 = ⟨10, 0⟩
    ∧ seedUsersChunked (fun _ => true) (fun _ => true) 10 3 = ⟨10, 0⟩
    ∧ seedUsersConservative (fun _ _ => none) (fun _ => true) 10 3
        = ⟨10, 0⟩ := by
  obtain ⟨hub, hlb⟩ := numBatches_bounds t b ht hb
  refine ⟨by simp [batchSizes], hub, hlb, ?_, ?_, rfl, by decide, by decide,
    by rw [seedUsersChunked_counts (fun _ => true) 10 3 (by decide)]; decide,
    by decide⟩
  · intro i hi
    have hget : (batchSizes t b).getD i 0 = min b (t - i * b) := by
      simp [batchSizes, List.getD_eq_getElem?_getD, List.getElem?_map,
        List.getElem?_range hi]
    refine ⟨hget, ?_⟩
    rw [hget]
    exact Nat.min_le_left _ _
  · have hn := numBatches_pos t b ht hb
    obtain ⟨m, hm⟩ := Nat.exists_eq_add_of_le hn
    unfold batchSizes
    rw [hm, Nat.add_comm 1 m, List.range_succ, List.map_append]
    simp only [List.map_cons, List.map_nil]
    rw [List.getLast?_concat]
    have hub' : t ≤ m * b + b := by
      rw [hm, Nat.add_comm 1 m] at hub
      have h1 : (m + 1) * b = m * b + b := by ring
      rw [h1] at hub
      exact hub
    have hmin : min b (t - m * b) = t - m * b := by
      apply Nat.min_eq_right
      set k := m * b with hk
      omega
    rw [Nat.add_sub_cancel, hmin]

theorem batch_layout_witness :
    (batchSizes 10 3).length = numBatches 10 3 :=
  (batch_layout 10 3 (by decide) (by decide)).1

/-- C3: in the conservative policy a failed creation attempt is retried iff
its message indicates 'ETIMEDOUT', 'ECONNRESET' or 'fetch failed'
(`isNetworkError`) and fewer than the maximum 3 attempts have been used, with
backoff `attempt * 1000` ms between attempts (cumulative `backoffSum`); all
other failures are terminal for the record.  Stated as: once the loop reaches
attempt `a` (every earlier attempt failed transiently), success at `a` ends
with `a-1` retries and `backoffSum a` total wait, and a failure at `a` that is
non-transient or at the third attempt is terminal with the same counts.
Consequently a stub failing attempts 1 and 2 with an 'ECONNRESET' message and
succeeding at attempt 3 is recorded as a success after exactly 2 retries with
cumulative backoff 1000 + 2000 = 3000 ms. -/
theorem conservative_retry (o : Nat → Option String) :
    (∀ a, 1 ≤ a → a ≤ 3 →
      (∀ c, 1 ≤ c → c < a → ∃ m, o c = some m ∧ isNetworkError m = true) →
      ((o a = none →
          createUserWithRetry o 3 = ⟨Except.ok (), a - 1, backoffSum a⟩)
        ∧ (∀ m, o a = some m → (isNetworkError m = false ∨ a = 3) →
            createUserWithRetry o 3 = ⟨Except.error m, a - 1, backoffSum a⟩)))
    ∧ (∀ m1 m2, o 1 = some m1 → strIncludes m1 "ECONNRESET" = true →
        o 2 = some m2 → strIncludes m2 "ECONNRESET" = true → o 3 = none →
        createUserWithRetry o 3 = ⟨Except.ok (), 2, 3000⟩) := by
  have hb1 : backoffSum 1 = 0 := rfl
  have hb2 : backoffSum 2 = 1000 := rfl
  have hb3 : backoffSum 3 = 3000 := rfl
  constructor
  · intro a h1 h3 hprior
    interval_cases a
    · constructor
      · intro h
        simp [createUserWithRetry, retryGo, h, hb1]
      · intro m hm hterm
        rcases hterm with hnet | h13
        · simp [createUserWithRetry, retryGo, hm, hnet, hb1]
        · exact absurd h13 (by decide)
    · obtain ⟨m1, hm1, hn1⟩ := hprior 1 (by decide) (by decide)
      constructor
      · intro h
        simp [createUserWithRetry, retryGo, hm1, hn1, h, hb2]
      · intro m hm hterm
        rcases hterm with hnet | h23
        · simp [createUserWithRetry, retryGo, hm1, hn1, hm, hnet, hb2]
        · exact absurd h23 (by decide)
    · obtain ⟨m1, hm1, hn1⟩ := hprior 1 (by decide) (by decide)
      obtain ⟨m2, hm2, hn2⟩ := hprior 2 (by decide) (by decide)
      constructor
      · intro h
        simp [createUserWithRetry, retryGo, hm1, hn1, hm2, hn2, h, hb3]
      · intro m hm hterm
        cases hn : isNetworkError m <;>
          simp [createUserWithRetry, retryGo, hm1, hn1, hm2, hn2, hm, hn, hb3]
  · intro m1 m2 hm1 hi1 hm2 hi2 h3
    have hn1 : isNetworkError m1 = true := by
      unfold isNetworkError
      rw [hi1]
      simp
    have hn2 : isNetworkError m2 = true := by
      unfold isNetworkError
      rw [hi2]
      simp
    simp [createUserWithRetry, retryGo, hm1, hn1, hm2, hn2, h3]

theorem conservative_retry_witness :
    createUserWithRetry
        (fun a => if a ≤ 2 then some "ECONNRESET" else none) 3
      = ⟨Except.ok (), 2, 3000⟩ :=
  (conservative_retry
      (fun a => if a ≤ 2 then some "ECONNRESET" else none)).2
    "ECONNRESET" "ECONNRESET" rfl (by decide) rfl (by decide) rfl

/-- C10: the run counters are monotonically non-decreasing: every batch-,
sub-chunk-, or record-completion step of the three policies only adds to
`processedUsers` and `errors`; no operation ever decreases either counter. -/
theorem counters_monotone (create : Nat → Bool)
    (attempts : Nat → Nat → Option String) (genOk : Bool)
    (start size j : Nat) (st : RunState) :
    (st.processedUsers
        ≤ (processBatch create genOk start size st).processedUsers
      ∧ st.errors ≤ (processBatch create genOk start size st).errors)
    ∧ (st.processedUsers
        ≤ (processChunks create start size st).processedUsers
      ∧ st.errors ≤ (processChunks create start size st).errors)
    ∧ (st.processedUsers
        ≤ (processBatchChunked create genOk start size st).processedUsers
      ∧ st.errors ≤ (processBatchChunked create genOk start size st).errors)
    ∧ (st.processedUsers
        ≤ (conservativeRecordStep attempts start st j).processedUsers
      ∧ st.errors ≤ (conservativeRecordStep attempts start st j).errors)
    ∧ (st.processedUsers
        ≤ (processBatchConservative attempts genOk start size
            st).processedUsers
      ∧ st.errors
        ≤ (processBatchConservative attempts genOk start size st).errors) := by
  refine ⟨?_, ?_, ?_, ?_, ?_⟩
  · cases genOk
    · rw [processBatch_err]
      simp
    · rw [processBatch_ok]
      simp
  · rw [processChunks_count]
    simp
  · cases genOk
    · rw [processBatchChunked_err]
      simp
    · rw [processBatchChunked_ok]
      simp
  · rw [conservativeRecordStep_eq]
    cases recordOk attempts (start + j) <;> simp
  · cases genOk
    · rw [processBatchConservative_err]
      simp
    · rw [processBatchConservative_ok]
      simp

theorem append_s_ne_calculating (s : String) :
    s ++ "s" ≠ "Calculating..." := by
  intro h
  have hL : ((s ++ "s").data.reverse.head?) = some 's' := by
    rw [String.data_append, List.reverse_append]
    rfl
  rw [h] at hL
  have hR : (("Calculating..." : String).data.reverse.head?) = some '.' := by
    decide
  rw [hR] at hL
  exact absurd hL (by decide)

/-- C8: `calculateETA` returns the not-yet-computable indicator
`"Calculating..."` iff `processed = 0` (every other branch renders a time
string ending in `"s"`), and for `processed > 0` the estimate `etaMillis` it
formats is strictly decreasing in `processed` when the observed rate
`processed / elapsed` is held constant. -/
theorem calculateETA_spec :
    (∀ processed total startTime now : ℚ,
      (calculateETA processed total startTime now = "Calculating...")
        ↔ processed = 0)
    ∧ (∀ total r p1 p2 e1 e2 : ℚ, 0 < r → 0 < p1 → p1 < p2 →
        p1 / e1 = r → p2 / e2 = r →
        etaMillis p2 total e2 < etaMillis p1 total e1) := by
  constructor
  · intro p total s n
    constructor
    · intro h
      by_contra hp
      unfold calculateETA at h
      rw [if_neg hp] at h
      dsimp only at h
      split at h
      · exact append_s_ne_calculating _ h
      · split at h
        · exact append_s_ne_calculating _ h
        · exact append_s_ne_calculating _ h
    · intro h
      subst h
      unfold calculateETA
      rw [if_pos rfl]
  · intro total r p1 p2 e1 e2 hr hp1 hlt h1 h2
    unfold etaMillis
    rw [h1, h2, div_lt_div_right hr, sub_lt_sub_iff_left]
    exact hlt

theorem calculateETA_spec_witness :
    ((calculateETA 0 10 0 5 = "Calculating...") ↔ (0 : ℚ) = 0)
      ∧ etaMillis 2 10 2 < etaMillis 1 10 1 :=
  ⟨calculateETA_spec.1 0 10 0 5,
    calculateETA_spec.2 10 1 1 2 1 2 (by norm_num) (by norm_num) (by norm_num)
      (by norm_num) (by norm_num)⟩

/-- C7 counterexample: the chunked policy's entry point (batch-seeder.ts
`main`, lines 151-169) never calls `validateConfig`; with both credentials
missing (empty strings, as `process.env.X || ''` yields) it still proceeds to
the seeding work and exits 0, so the claim that under each of the three
policies a missing credential fail-fasts with exit status 1 is false. -/
theorem missing_credential_counterexample :
    (⟨"", "", 1, 1⟩ : AppConfig).supabaseUrl = ""
      ∧ (mainBatchSeeder ⟨"", "", 1, 1⟩ (fun _ => true)
          (fun _ => true)).exitCode = 0
      ∧ (mainBatchSeeder ⟨"", "", 1, 1⟩ (fun _ => true)
          (fun _ => true)).reported = none
      ∧ (mainBatchSeeder ⟨"", "", 1, 1⟩ (fun _ => true) (fun _ => true)).run
          = some (seedUsersChunked (fun _ => true) (fun _ => true) 1 1)
      ∧ seedUsersChunked (fun _ => true) (fun _ => true) 1 1 = ⟨1, 0⟩ := by
  refine ⟨rfl, rfl, rfl, rfl, ?_⟩
  rw [seedUsersChunked_counts (fun _ => true) 1 1 (by decide)]
  decide

/-- C7 (amended): the concurrent policy's entry point (index.ts) fail-fasts on
a missing credential before any seeding work, reporting the specific missing
setting and exiting 1: a missing service URL reports "SUPABASE_URL is
required", a missing service key reports "SUPABASE_SERVICE_ROLE_KEY is
required"; with both present the run proceeds and exits 0.  The chunked and
conservative entry points perform no credential validation of their own and
run regardless (they rely on the external client, which is out of scope). -/
theorem missing_credential_fail_fast (cfg : AppConfig) (create : Nat → Bool)
    (attempts : Nat → Nat → Option String) (genOk : Nat → Bool) :
    (cfg.supabaseUrl = "" →
      mainIndex cfg create genOk
        = ⟨1, some "SUPABASE_URL is required", none⟩)
    ∧ (cfg.supabaseUrl ≠ "" → cfg.serviceRoleKey = "" →
      mainIndex cfg create genOk
        = ⟨1, some "SUPABASE_SERVICE_ROLE_KEY is required", none⟩)
    ∧ (cfg.supabaseUrl ≠ "" → cfg.serviceRoleKey ≠ "" →
      mainIndex cfg create genOk
        = ⟨0, none, some (seedUsersConcurrent create genOk cfg.totalUsers
            cfg.batchSize)⟩)
    ∧ (mainBatchSeeder cfg create genOk).exitCode = 0
    ∧ (mainBatchSeeder cfg create genOk).reported = none
    ∧ (mainConservative cfg attempts genOk).exitCode = 0
    ∧ (mainConservative cfg attempts genOk).reported = none := by
  refine ⟨?_, ?_, ?_, rfl, rfl, rfl, rfl⟩
  · intro h
    unfold mainIndex validateConfig
    rw [if_pos h]
  · intro h1 h2
    unfold mainIndex validateConfig
    rw [if_neg h1, if_pos h2]
  · intro h1 h2
    unfold mainIndex validateConfig
    rw [if_neg h1, if_neg h2]

theorem missing_credential_fail_fast_witness :
    mainIndex ⟨"", "", 5, 2⟩ (fun _ => true) (fun _ => true)
      = ⟨1, some "SUPABASE_URL is required", none⟩ :=
  (missing_credential_fail_fast ⟨"", "", 5, 2⟩ (fun _ => true)
    (fun _ _ => none) (fun _ => true)).1 rfl

theorem sep_split (sep : Char) :
    ∀ (a b x y : List Char), sep ∉ a → sep ∉ b →
      a ++ sep :: x = b ++ sep :: y → a = b ∧ x = y := by
  intro a
  induction a with
  | nil =>
    intro b x y _ hb h
    cases b with
    | nil =>
      simp only [List.nil_append] at h
      injection h with _ h2
      exact ⟨rfl, h2⟩
    | cons c cs =>
      simp only [List.nil_append, List.cons_append] at h
      injection h with h1 _
      exact absurd (h1 ▸ List.mem_cons_self c cs) hb
  | cons a as ih =>
    intro b x y ha hb h
    cases b with
    | nil =>
      simp only [List.cons_append, List.nil_append] at h
      injection h with h1 _
      refine absurd ?_ ha
      rw [← h1]
      exact List.mem_cons_self a as
    | cons c cs =>
      simp only [List.cons_append] at h
      injection h with h1 h2
      have hat : sep ∉ as := fun hm => ha (List.mem_cons_of_mem _ hm)
      have hbt : sep ∉ cs := fun hm => hb (List.mem_cons_of_mem _ hm)
      obtain ⟨hab, hxy⟩ := ih cs x y hat hbt h2
      refine ⟨?_, hxy⟩
      rw [h1, hab]

theorem digitChar_toNat (d : Nat) (hd : d < 10) :
    (digitChar d).toNat = 48 + d := by
  interval_cases d <;> decide

theorem map_digitChar_decode (l : List Nat) (hl : ∀ d ∈ l, d < 10) :
    (l.map digitChar).map (fun c => c.toNat - 48) = l := by
  induction l with
  | nil => rfl
  | cons d ds ih =>
    simp only [List.map_cons]
    rw [digitChar_toNat d (hl d (List.mem_cons_self d ds)),
      ih (fun x hx => hl x (List.mem_cons_of_mem _ hx)),
      Nat.add_sub_cancel_left]

theorem digits_bound (n : Nat) :
    ∀ d ∈ (Nat.digits 10 n).reverse, d < 10 := fun d hd =>
  Nat.digits_lt_base (by norm_num) (List.mem_reverse.mp hd)

theorem natCharsAux_eq : ∀ (n fuel : Nat), n ≤ fuel →
    natCharsAux fuel n = (Nat.digits 10 n).reverse.map digitChar := by
  intro n
  induction n using Nat.strong_induction_on with
  | _ n ih =>
    intro fuel hle
    cases fuel with
    | zero =>
      have hn0 : n = 0 := by omega
      subst hn0
      simp [natCharsAux]
    | succ f =>
      by_cases hn : n = 0
      · subst hn
        simp [natCharsAux]
      · simp only [natCharsAux]
        rw [if_neg hn]
        have hd := Nat.digits_def' (show 1 < 10 by norm_num)
          (Nat.pos_of_ne_zero hn)
        rw [hd, List.reverse_cons, List.map_append,
          ih (n / 10) (by omega) f (by omega)]
        rfl

theorem natChars_eq_digits (n : Nat) :
    natChars n
      = if n = 0 then ['0'] else (Nat.digits 10 n).reverse.map digitChar := by
  unfold natChars
  by_cases hn : n = 0
  · rw [if_pos hn, if_pos hn]
  · rw [if_neg hn, if_neg hn, natCharsAux_eq n n (Nat.le_refl n)]

theorem natChars_inj (n m : Nat) (h : natChars n = natChars m) : n = m := by
  rw [natChars_eq_digits, natChars_eq_digits] at h
  by_cases hn : n = 0 <;> by_cases hm : m = 0
  · omega
  · exfalso
    rw [if_pos hn, if_neg hm] at h
    have h2 := congrArg (List.map fun c => c.toNat - 48) h
    rw [map_digitChar_decode _ (digits_bound m)] at h2
    have h0 : List.map (fun c => c.toNat - 48) ['0'] = [0] := by decide
    rw [h0] at h2
    have hd : Nat.digits 10 m = [0] := by
      have h3 := congrArg List.reverse h2
      simpa using h3.symm
    have h4 := Nat.ofDigits_digits 10 m
    rw [hd] at h4
    simp [Nat.ofDigits] at h4
    exact hm h4.symm
  · exfalso
    rw [if_neg hn, if_pos hm] at h
    have h2 := congrArg (List.map fun c => c.toNat - 48) h
    rw [map_digitChar_decode _ (digits_bound n)] at h2
    have h0 : List.map (fun c => c.toNat - 48) ['0'] = [0] := by decide
    rw [h0] at h2
    have hd : Nat.digits 10 n = [0] := by
      have h3 := congrArg List.reverse h2
      simpa using h3
    have h4 := Nat.ofDigits_digits 10 n
    rw [hd] at h4
    simp [Nat.ofDigits] at h4
    exact hn h4.symm
  · rw [if_neg hn, if_neg hm] at h
    have h2 := congrArg (List.map fun c => c.toNat - 48) h
    rw [map_digitChar_decode _ (digits_bound n),
      map_digitChar_decode _ (digits_bound m)] at h2
    have h3 := congrArg List.reverse h2
    simp only [List.reverse_reverse] at h3
    have h4 := Nat.ofDigits_digits 10 n
    rw [h3, Nat.ofDigits_digits 10 m] at h4
    exact h4.symm

theorem digitChar_not_special (d : Nat) (hd : d < 10) :
    digitChar d ≠ '-' ∧ digitChar d ≠ '@' ∧ digitChar d ≠ '.' := by
  interval_cases d <;> exact ⟨by decide, by decide, by decide⟩

theorem natChars_mem (c : Char) (n : Nat) (hc : c ∈ natChars n) :
    c ≠ '-' ∧ c ≠ '@' ∧ c ≠ '.' := by
  rw [natChars_eq_digits] at hc
  by_cases hn : n = 0
  · rw [if_pos hn] at hc
    simp only [List.mem_singleton] at hc
    subst hc
    exact ⟨by decide, by decide, by decide⟩
  · rw [if_neg hn] at hc
    obtain ⟨d, hd, rfl⟩ := List.mem_map.mp hc
    exact digitChar_not_special d
      (Nat.digits_lt_base (by norm_num) (List.mem_reverse.mp hd))

theorem namesClean :
    ((firstNames ++ lastNames).all
      fun s => (s.data.map Char.toLower).all fun c => c != '-') = true := by
  decide

theorem name_no_dash (s : String) (hs : s ∈ firstNames ++ lastNames) :
    '-' ∉ (lowerStr s).data := by
  have hall := namesClean
  rw [List.all_eq_true] at hall
  have hs2 := hall s hs
  rw [List.all_eq_true] at hs2
  intro hmem
  have hx := hs2 '-' hmem
  simp at hx

theorem getD_no_dash (table : List String)
    (hTable : ∀ s ∈ table, '-' ∉ (lowerStr s).data) (k : Nat) :
    '-' ∉ (lowerStr (table.getD k "")).data := by
  by_cases hk : k < table.length
  · rw [List.getD_eq_getElem?_getD, List.getElem?_eq_getElem hk]
    exact hTable _ (List.getElem_mem hk)
  · rw [List.getD_eq_getElem?_getD, List.getElem?_eq_none (by omega)]
    intro hmem
    simp [lowerStr] at hmem

theorem firstName_no_dash (k : Nat) :
    '-' ∉ (lowerStr (firstNames.getD k "")).data :=
  getD_no_dash firstNames
    (fun s hs => name_no_dash s (List.mem_append_left _ hs)) k

theorem lastName_no_dash (k : Nat) :
    '-' ∉ (lowerStr (lastNames.getD k "")).data :=
  getD_no_dash lastNames
    (fun s hs => name_no_dash s (List.mem_append_right _ hs)) k

theorem emailLocal_no_dash (fn ln : String) (ts : Nat)
    (hfn : '-' ∉ (lowerStr fn).data) (hln : '-' ∉ (lowerStr ln).data) :
    '-' ∉ emailLocal fn ln ts := by
  unfold emailLocal
  intro hm
  rcases List.mem_append.mp hm with h | h
  · rcases List.mem_append.mp h with h2 | h2
    · exact hfn h2
    · rcases List.mem_cons.mp h2 with h3 | h3
      · exact absurd h3 (by decide)
      · exact hln h3
  · rcases List.mem_cons.mp h with h3 | h3
    · exact absurd h3 (by decide)
    · exact (natChars_mem _ _ h3).1 rfl

theorem emailChars_split (fn ln fn' ln' : String) (ts ts' i j : Nat)
    (dom dom' : String)
    (hfn : '-' ∉ (lowerStr fn).data) (hln : '-' ∉ (lowerStr ln).data)
    (hfn' : '-' ∉ (lowerStr fn').data) (hln' : '-' ∉ (lowerStr ln').data)
    (h : emailChars fn ln ts i dom = emailChars fn' ln' ts' j dom') :
    emailLocal fn ln ts = emailLocal fn' ln' ts'
      ∧ natChars i ++ '@' :: dom.data = natChars j ++ '@' :: dom'.data := by
  unfold emailChars at h
  exact sep_split '-' _ _ _ _ (emailLocal_no_dash fn ln ts hfn hln)
    (emailLocal_no_dash fn' ln' ts' hfn' hln') h

theorem natChars_at_split (i j : Nat) (dom dom' : String)
    (h : natChars i ++ '@' :: dom.data = natChars j ++ '@' :: dom'.data) :
    i = j := by
  have hi : '@' ∉ natChars i := fun hm => (natChars_mem _ _ hm).2.1 rfl
  have hj : '@' ∉ natChars j := fun hm => (natChars_mem _ _ hm).2.1 rfl
  exact natChars_inj i j (sep_split '@' _ _ _ _ hi hj h).1

theorem emailLocal_ts_inj (fn ln fn' ln' : String) (ts ts' : Nat)
    (h : emailLocal fn ln ts = emailLocal fn' ln' ts') : ts = ts' := by
  have h2 := congrArg List.reverse h
  unfold emailLocal at h2
  simp only [List.reverse_append, List.reverse_cons, List.append_assoc,
    List.singleton_append, List.nil_append] at h2
  have hts : '.' ∉ (natChars ts).reverse := fun hm =>
    (natChars_mem _ _ (List.mem_reverse.mp hm)).2.2 rfl
  have hts' : '.' ∉ (natChars ts').reverse := fun hm =>
    (natChars_mem _ _ (List.mem_reverse.mp hm)).2.2 rfl
  have hC := (sep_split '.' _ _ _ _ hts hts' h2).1
  have hC2 := congrArg List.reverse hC
  simp only [List.reverse_reverse] at hC2
  exact natChars_inj ts ts' hC2

theorem emailAt_generate (n : Nat) (dom pwd : String) (ts : Nat)
    (pick : Nat → Nat × Nat) (i : Nat) (hi : i < n) :
    emailAt (generateUserBatch n dom pwd ts pick) i
      = String.mk (emailChars (firstNames.getD (pick i).1 "")
          (lastNames.getD (pick i).2 "") ts i dom) := by
  unfold emailAt generateUserBatch
  rw [List.getD_eq_getElem?_getD, List.getElem?_map, List.getElem?_range hi]
  rfl

/-- C4 (amended): within one generated batch no two of the N records share an
email (the decimal record index between the `'-'` and the `'@'` determines the
record); two records of batches generated with different `Date.now()`
timestamps never share an email; and every generated record's
`email_verified` metadata field is true.  Cross-batch uniqueness within a run
does not hold in general: two batches generated in the same millisecond with
repeating random draws collide (see the counterexample). -/
theorem generator_email_unique (n n2 : Nat) (dom pwd : String) (ts ts2 : Nat)
    (pick pick2 : Nat → Nat × Nat) (i j : Nat) :
    (i < n → j < n → i ≠ j →
      emailAt (generateUserBatch n dom pwd ts pick) i
        ≠ emailAt (generateUserBatch n dom pwd ts pick) j)
    ∧ (i < n → j < n2 → ts ≠ ts2 →
      emailAt (generateUserBatch n dom pwd ts pick) i
        ≠ emailAt (generateUserBatch n2 dom pwd ts2 pick2) j)
    ∧ (∀ u ∈ generateUserBatch n dom pwd ts pick,
        u.user_metadata.email_verified = true) := by
  refine ⟨?_, ?_, ?_⟩
  · intro hi hj hij h
    rw [emailAt_generate n dom pwd ts pick i hi,
      emailAt_generate n dom pwd ts pick j hj] at h
    injection h with h2
    have hsplit := emailChars_split _ _ _ _ ts ts i j dom dom
      (firstName_no_dash (pick i).1) (lastName_no_dash (pick i).2)
      (firstName_no_dash (pick j).1) (lastName_no_dash (pick j).2) h2
    exact hij (natChars_at_split i j dom dom hsplit.2)
  · intro hi hj hts h
    rw [emailAt_generate n dom pwd ts pick i hi,
      emailAt_generate n2 dom pwd ts2 pick2 j hj] at h
    injection h with h2
    have hsplit := emailChars_split _ _ _ _ ts ts2 i j dom dom
      (firstName_no_dash (pick i).1) (lastName_no_dash (pick i).2)
      (firstName_no_dash (pick2 j).1) (lastName_no_dash (pick2 j).2) h2
    exact hts (emailLocal_ts_inj _ _ _ _ ts ts2 hsplit.1)
  · intro u hu
    unfold generateUserBatch at hu
    obtain ⟨k, -, rfl⟩ := List.mem_map.mp hu
    rfl

theorem generator_email_unique_witness :
    emailAt (generateUserBatch 2 "example.com" "password123" 5
        fun _ => (0, 0)) 0
      ≠ emailAt (generateUserBatch 2 "example.com" "password123" 5
          fun _ => (0, 0)) 1 :=
  (generator_email_unique 2 2 "example.com" "password123" 5 5
    (fun _ => (0, 0)) (fun _ => (0, 0)) 0 1).1 (by decide) (by decide)
    (by decide)

/-- C4 counterexample: the generator is deterministic in its environment
inputs — the single `Date.now()` timestamp taken per call and the random name
draws — so two different batches of one run whose generator calls fall in the
same millisecond and repeat the same draws produce the same emails.  Batch A
(2 records) and batch B (3 records) below are distinct generator calls of one
run; record 0 of A and record 0 of B share one email, refuting the claim that
records of different batches of a run never share an email. -/
theorem generator_cross_batch_collision :
    emailAt (generateUserBatch 2 "example.com" "password123" 123456
        fun _ => (0, 0)) 0
      = emailAt (generateUserBatch 3 "example.com" "password123" 123456
          fun k => (k, k)) 0 := by
  decide

theorem filterMap_id_replicate_none (n : Nat) :
    (List.replicate n (none : Option Nat)).filterMap id = [] := by
  induction n with
  | zero => rfl
  | succ m ih => simp [List.replicate_succ, List.filterMap_cons, ih]

theorem filterMap_set_some (l : List (Option Nat)) :
    ∀ (k b : Nat), l[k]? = some none →
      ((l.set k (some b)).filterMap id).Perm (b :: l.filterMap id) := by
  induction l with
  | nil =>
    intro k b hget
    simp at hget
  | cons h t ih =>
    intro k b hget
    cases k with
    | zero =>
      rw [List.getElem?_cons_zero] at hget
      injection hget with hget
      subst hget
      simp [List.filterMap_cons]
    | succ k' =>
      rw [List.getElem?_cons_succ] at hget
      rw [List.set_cons_succ]
      cases h with
      | none =>
        simp only [List.filterMap_cons]
        exact ih k' b hget
      | some a =>
        simp only [List.filterMap_cons]
        exact ((ih k' b hget).cons a).trans (List.Perm.swap b a _)

theorem filterMap_set_none (l : List (Option Nat)) :
    ∀ (k b : Nat), l[k]? = some (some b) →
      (l.filterMap id).Perm (b :: (l.set k none).filterMap id) := by
  induction l with
  | nil =>
    intro k b hget
    simp at hget
  | cons h t ih =>
    intro k b hget
    cases k with
    | zero =>
      rw [List.getElem?_cons_zero] at hget
      injection hget with hget
      subst hget
      simp [List.filterMap_cons]
    | succ k' =>
      rw [List.getElem?_cons_succ] at hget
      rw [List.set_cons_succ]
      cases h with
      | none =>
        simp only [List.filterMap_cons]
        exact ih k' b hget
      | some a =>
        simp only [List.filterMap_cons]
        exact ((ih k' b hget).cons a).trans (List.Perm.swap b a _)

theorem strace_inv (batches : Nat) :
    ∀ {s : SchedState} {ls : List SLabel} {u : SchedState},
      STrace batches s ls u →
      s.slots.length = u.slots.length
      ∧ s.current ≤ u.current
      ∧ dispLabels ls = List.range' s.current (u.current - s.current)
      ∧ (compLabels ls ++ inFlight u).Perm (dispLabels ls ++ inFlight s) := by
  intro s ls u h
  induction h with
  | done s =>
    refine ⟨rfl, Nat.le_refl _, by simp [dispLabels], ?_⟩
    simp only [compLabels, dispLabels, List.filterMap_nil, List.nil_append]
    exact List.Perm.refl _
  | step s l t ls u hstep htrace ih =>
    obtain ⟨ihlen, ihle, ihdisp, ihperm⟩ := ih
    cases hstep with
    | dispatch k hfree hlt =>
      refine ⟨?_, ?_, ?_, ?_⟩
      · rw [← ihlen]
        simp
      · simp only at ihle
        omega
      · simp only [dispLabels, List.filterMap_cons, dispOf] at ihdisp ⊢
        simp only at ihdisp ihle
        rw [ihdisp,
          show u.current - s.current = (u.current - (s.current + 1)) + 1
            from by omega,
          List.range'_succ]
      · simp only [compLabels, dispLabels, List.filterMap_cons, dispOf,
          compOf] at ihperm ⊢
        have hfl : (inFlight ⟨s.current + 1,
            s.slots.set k (some s.current)⟩).Perm
              (s.current :: inFlight s) := by
          unfold inFlight
          exact filterMap_set_some s.slots k s.current hfree
        refine ihperm.trans ?_
        refine (List.Perm.append_left (ls.filterMap dispOf) hfl).trans ?_
        exact List.perm_middle
    | complete k b hocc =>
      refine ⟨?_, ?_, ?_, ?_⟩
      · rw [← ihlen]
        simp
      · simpa using ihle
      · simp only [dispLabels, List.filterMap_cons, dispOf] at ihdisp ⊢
        exact ihdisp
      · simp only [compLabels, dispLabels, List.filterMap_cons, dispOf,
          compOf] at ihperm ⊢
        have hfl : (inFlight s).Perm
            (b :: inFlight ⟨s.current, s.slots.set k none⟩) := by
          unfold inFlight
          exact filterMap_set_none s.slots k b hocc
        refine (ihperm.cons b).trans ?_
        refine ((List.Perm.append_left (ls.filterMap dispOf) hfl).trans
          ?_).symm
        exact List.perm_middle

/-- C6: along every execution trace of the concurrent dispatch loop, at most
`concurrency_limit` batches are in flight at any point (the in-flight list
lives inside the fixed `limit`-slot semaphore array and never exceeds it);
batches are dispatched in increasing index order — the dispatch labels of any
trace are exactly `0, 1, ..., current-1` in that order; and the run reaches
completion (dispatch loop exhausted and `Promise.all` drained: all slots free)
only after every dispatched batch has drained — at completion the completion
labels are a permutation of all `batches` indices. -/
theorem concurrent_scheduler_spec (limit batches : Nat) (ls : List SLabel)
    (s : SchedState) (h : STrace batches (schedInit limit) ls s) :
    (inFlight s).length ≤ limit
    ∧ dispLabels ls = List.range s.current
    ∧ (s.current = batches → inFlight s = [] →
        (compLabels ls).Perm (List.range batches)) := by
  obtain ⟨hlen, hle, hdisp, hperm⟩ := strace_inv batches h
  have hinit : inFlight (schedInit limit) = [] := by
    unfold inFlight schedInit
    exact filterMap_id_replicate_none limit
  have hdisp' : dispLabels ls = List.range s.current := by
    rw [hdisp]
    simp [schedInit, List.range_eq_range']
  refine ⟨?_, hdisp', ?_⟩
  · have h1 := List.length_filterMap_le id s.slots
    have h2 : s.slots.length = limit := by
      rw [← hlen]
      simp [schedInit]
    unfold inFlight
    omega
  · intro hc hfl
    rw [hfl, hinit] at hperm
    simp only [List.append_nil] at hperm
    rw [hdisp', hc] at hperm
    exact hperm

theorem concurrent_scheduler_spec_witness :
    (inFlight ⟨1, [none]⟩).length ≤ 1
      ∧ dispLabels [SLabel.disp 0, SLabel.comp 0]
        = List.range (⟨1, [none]⟩ : SchedState).current
      ∧ ((⟨1, [none]⟩ : SchedState).current = 1 → inFlight ⟨1, [none]⟩ = [] →
          (compLabels [SLabel.disp 0, SLabel.comp 0]).Perm (List.range 1)) :=
  concurrent_scheduler_spec 1 1 [SLabel.disp 0, SLabel.comp 0] ⟨1, [none]⟩
    (STrace.step _ _ _ _ _
      (SStep.dispatch (schedInit 1) 0 rfl (by decide))
      (STrace.step _ _ _ _ _
        (SStep.complete ⟨1, [some 0]⟩ 0 0 rfl)
        (STrace.done ⟨1, [none]⟩)))
